import Mathlib

/-!
# clox/chap16_scanning/c/common.h — preprocessing model

The repository's only source file is a configuration header made of preprocessor
directives.  Its meaning is the effect it has on the preprocessor's macro table.
This development embeds the header, line by line, as a list of directives and
interprets it with a small conditional-inclusion machine:

* the macro table is the set of defined macro names;
* `#define` adds a name, `#undef` removes one;
* `#ifndef` opens a conditional group that is skipped when the name is defined,
  `#endif` closes the innermost group;
* `#include <h>` of a system header adds the macro names that header provides
  (a parameter of the model, since those headers are not part of the repository).
-/

namespace Clox

/-- One preprocessing line of the kinds that occur in `common.h`. -/
inductive Directive where
  | ifndef (name : String)
  | define (name : String)
  | undef (name : String)
  | includeSys (header : String)
  | endif
  | blank
  | comment (text : String)
  deriving DecidableEq

/-- Preprocessor state: the defined macro names and the stack of open conditional
groups (innermost first; `true` means the group is being processed, `false` that
it is being skipped). -/
structure PPState where
  macros : Finset String
  conds : List Bool
  deriving DecidableEq

/-- Lines are processed only when no enclosing conditional group is skipped. -/
def PPState.active (st : PPState) : Bool :=
  st.conds.all id

/-- The state in which a translation unit starts: the given macros, no open group. -/
def PPState.start (s : Finset String) : PPState :=
  ⟨s, []⟩

/-- Effect of one line.  `sys h` is the set of macro names provided by the system
header `h`.  An `#endif` without an open group is an error (`none`). -/
def step (sys : String → Finset String) (st : PPState) : Directive → Option PPState
  | .ifndef n =>
      some { st with conds := (st.active && decide (n ∉ st.macros)) :: st.conds }
  | .endif =>
      match st.conds with
      | [] => none
      | _ :: cs => some { st with conds := cs }
  | .define n =>
      some (if st.active then { st with macros := insert n st.macros } else st)
  | .undef n =>
      some (if st.active then { st with macros := st.macros.erase n } else st)
  | .includeSys h =>
      some (if st.active then { st with macros := st.macros ∪ sys h } else st)
  | .blank => some st
  | .comment _ => some st

/-- Run the lines of a file in order, stopping at the first error. -/
def run (sys : String → Finset String) : List Directive → PPState → Option PPState
  | [], st => some st
  | d :: ds, st => (step sys st d).bind (run sys ds)

/-- Process a whole file from the macro set `s`: the resulting macro set, or `none`
when the file has an unmatched `#endif` or an unterminated conditional group. -/
def process (sys : String → Finset String) (file : List Directive)
    (s : Finset String) : Option (Finset String) :=
  match run sys file (PPState.start s) with
  | some ⟨m, []⟩ => some m
  | _ => none

/-- The sixteen lines of `common.h`, in order. -/
def commonH : List Directive :=
  [ Directive.ifndef "clox_common_h"                                  -- line 1
  , Directive.define "clox_common_h"                                  -- line 2
  , Directive.blank                                                   -- line 3
  , Directive.includeSys "stdbool.h"                                  -- line 4
  , Directive.includeSys "stddef.h"                                   -- line 5
  , Directive.includeSys "stdint.h"                                   -- line 6
  , Directive.blank                                                   -- line 7
  , Directive.define "DEBUG_TRACE_EXECUTION"                          -- line 8
  , Directive.blank                                                   -- line 9
  , Directive.endif                                                   -- line 10
  , Directive.comment "In the book, we show them defined, but for working on them locally,"
  , Directive.comment "we don't want them to be."                     -- line 12
  , Directive.undef "DEBUG_PRINT_CODE"                                -- line 13
  , Directive.undef "DEBUG_TRACE_EXECUTION"                           -- line 14
  , Directive.undef "DEBUG_STRESS_GC"                                 -- line 15
  , Directive.undef "DEBUG_LOG_GC"                                    -- line 16
  ]

/-- The four debug flags named by the header (lines 13-16). -/
def debugFlags : List String :=
  ["DEBUG_PRINT_CODE", "DEBUG_TRACE_EXECUTION", "DEBUG_STRESS_GC", "DEBUG_LOG_GC"]

/-- The macro set left by the four trailing `#undef` lines applied to `m`. -/
def undefFlags (m : Finset String) : Finset String :=
  (((m.erase "DEBUG_PRINT_CODE").erase "DEBUG_TRACE_EXECUTION").erase
    "DEBUG_STRESS_GC").erase "DEBUG_LOG_GC"

/-- The variant configuration made of the guarded part only: lines 1-10, without
the trailing comment and `#undef` lines. -/
def guardedPart : List Directive :=
  commonH.take 10

/-- The header with line 8 (`#define DEBUG_TRACE_EXECUTION`) removed. -/
def withoutLine8 : List Directive :=
  commonH.eraseIdx 7

/-- Modelled from the spec: the consumer contract of section 6.  The consumers are
not part of the repository; one that honours a flag checks, at its own compile
time, whether the flag is defined and includes its diagnostic branch if so and
its plain branch otherwise. -/
def gatedCode {α : Type} (m : Finset String) (flag : String) (diag plain : α) : α :=
  if flag ∈ m then diag else plain

/-- What `common.h` computes, in closed form. -/
theorem process_commonH (sys : String → Finset String) (s : Finset String) :
    process sys commonH s =
      some (if "clox_common_h" ∈ s then undefFlags s
            else undefFlags (insert "DEBUG_TRACE_EXECUTION"
              (insert "clox_common_h" s ∪ sys "stdbool.h" ∪ sys "stddef.h"
                ∪ sys "stdint.h"))) := by
  by_cases h : "clox_common_h" ∈ s <;>
    simp [process, run, step, commonH, undefFlags, PPState.active, PPState.start, h]

/-- What the header without its line 8 computes, in closed form. -/
theorem process_withoutLine8 (sys : String → Finset String) (s : Finset String) :
    process sys withoutLine8 s =
      some (if "clox_common_h" ∈ s then undefFlags s
            else undefFlags (insert "clox_common_h" s ∪ sys "stdbool.h"
              ∪ sys "stddef.h" ∪ sys "stdint.h")) := by
  by_cases h : "clox_common_h" ∈ s <;>
    simp [process, run, step, withoutLine8, commonH, undefFlags, PPState.active,
      PPState.start, h]

/-- The trailing `#undef` lines cancel a preceding `#define DEBUG_TRACE_EXECUTION`. -/
theorem undefFlags_insert_trace (m : Finset String) :
    undefFlags (insert "DEBUG_TRACE_EXECUTION" m) = undefFlags m := by
  ext x
  simp only [undefFlags, Finset.mem_erase, Finset.mem_insert]
  tauto

/-- None of the four debug flags survives the trailing `#undef` lines. -/
theorem not_mem_undefFlags (m : Finset String) (f : String) (hf : f ∈ debugFlags) :
    f ∉ undefFlags m := by
  simp only [debugFlags, List.mem_cons, List.mem_singleton, List.not_mem_nil,
    or_false] at hf
  rcases hf with rfl | rfl | rfl | rfl <;> simp [undefFlags]

/-- The result of `common.h` is always of the form `undefFlags m`. -/
theorem process_commonH_undefFlags (sys : String → Finset String) (s : Finset String) :
    ∃ m, process sys commonH s = some (undefFlags m) := by
  rw [process_commonH]
  split
  · exact ⟨_, rfl⟩
  · exact ⟨_, rfl⟩

/-- C1: from every initial macro set, and whatever the system headers provide,
processing `common.h` succeeds and leaves none of the four debug flags defined. -/
theorem commonH_disables_all_flags (sys : String → Finset String) (s : Finset String) :
    ∃ m, process sys commonH s = some m ∧
      "DEBUG_PRINT_CODE" ∉ m ∧ "DEBUG_TRACE_EXECUTION" ∉ m ∧
      "DEBUG_STRESS_GC" ∉ m ∧ "DEBUG_LOG_GC" ∉ m := by
  obtain ⟨m, hm⟩ := process_commonH_undefFlags sys s
  exact ⟨_, hm, not_mem_undefFlags m _ (by decide), not_mem_undefFlags m _ (by decide),
    not_mem_undefFlags m _ (by decide), not_mem_undefFlags m _ (by decide)⟩

/-- C2: processing `common.h` is idempotent: the macro set produced by one pass is
reproduced unchanged by a second pass. -/
theorem commonH_idempotent (sys : String → Finset String) (s : Finset String) :
    ∃ m, process sys commonH s = some m ∧ process sys commonH m = some m := by
  refine ⟨_, process_commonH sys s, ?_⟩
  rw [process_commonH]
  by_cases h : "clox_common_h" ∈ s
  · simp [h, undefFlags]
  · simp [h, undefFlags]

/-- C3: the flags are independent.  For every one of the four debug flags `F` and
each other debug flag `G`, in every preprocessor state, `#define F` and `#undef F`
both succeed and leave unchanged whether `G` is defined. -/
theorem flag_directives_independent (sys : String → Finset String) (st : PPState) :
    ∀ F ∈ debugFlags, ∀ G ∈ debugFlags, G ≠ F →
      (∃ st1, step sys st (.define F) = some st1 ∧
        (G ∈ st1.macros ↔ G ∈ st.macros)) ∧
      (∃ st2, step sys st (.undef F) = some st2 ∧
        (G ∈ st2.macros ↔ G ∈ st.macros)) := by
  intro F _ G _ hne
  constructor
  · refine ⟨_, rfl, ?_⟩
    split <;> simp [hne]
  · refine ⟨_, rfl, ?_⟩
    split <;> simp [hne]

/-- Witness for C3 at `F = DEBUG_TRACE_EXECUTION` (the flag of lines 8 and 14) and
`G = DEBUG_LOG_GC`, from the macro set `{DEBUG_LOG_GC}`. -/
theorem flag_directives_independent_witness :
    (∃ st1, step (fun _ => ∅) (PPState.start {"DEBUG_LOG_GC"})
        (Directive.define "DEBUG_TRACE_EXECUTION") = some st1 ∧
      ("DEBUG_LOG_GC" ∈ st1.macros ↔
        "DEBUG_LOG_GC" ∈ (PPState.start {"DEBUG_LOG_GC"}).macros)) ∧
    (∃ st2, step (fun _ => ∅) (PPState.start {"DEBUG_LOG_GC"})
        ( Directive.undef "DEBUG_TRACE_EXECUTION") = some st2 ∧
      ("DEBUG_LOG_GC" ∈ st2.macros ↔
        "DEBUG_LOG_GC" ∈ (PPState.start {"DEBUG_LOG_GC"}).macros)) :=
  flag_directives_independent (fun _ => ∅) (PPState.start {"DEBUG_LOG_GC"})
    "DEBUG_TRACE_EXECUTION" (by decide) "DEBUG_LOG_GC" (by decide) (by decide)

/-- C4: for a consumer gating code behind one of the four debug flags, the code
selected under the macro set produced by `common.h` is the plain branch, that is,
the code with the diagnostic branch compiled out; this for every initial macro
set. -/
theorem gated_consumer_gets_plain_branch {α : Type} (sys : String → Finset String)
    (s : Finset String) (flag : String) (hflag : flag ∈ debugFlags) (diag plain : α) :
    ∃ m, process sys commonH s = some m ∧ gatedCode m flag diag plain = plain := by
  obtain ⟨m, hm⟩ := process_commonH_undefFlags sys s
  refine ⟨_, hm, ?_⟩
  simp [gatedCode, not_mem_undefFlags m flag hflag]

/-- Witness for C4: a consumer gated behind `DEBUG_TRACE_EXECUTION`, built from a
macro set in which that flag was defined beforehand. -/
theorem gated_consumer_gets_plain_branch_witness :
    "DEBUG_TRACE_EXECUTION" ∈ debugFlags ∧
    ∃ m, process (fun _ => ∅) commonH {"DEBUG_TRACE_EXECUTION"} = some m ∧
      gatedCode m "DEBUG_TRACE_EXECUTION" "trace; run" "run" = "run" :=
  ⟨by decide,
    gated_consumer_gets_plain_branch (fun _ => ∅) {"DEBUG_TRACE_EXECUTION"}
      "DEBUG_TRACE_EXECUTION" (by decide) "trace; run" "run"⟩

/-- C5: in the variant made of the guarded part only (lines 1-10), processed from
a macro set in which the include guard and the four flags are undefined, and with
system headers that provide none of the other three flags, processing succeeds
and `DEBUG_TRACE_EXECUTION` is defined while `DEBUG_PRINT_CODE`,
`DEBUG_STRESS_GC` and `DEBUG_LOG_GC` are not. -/
theorem guardedPart_enables_only_trace (sys : String → Finset String)
    (s : Finset String)
    (hguard : "clox_common_h" ∉ s)
    (hflags : ∀ f ∈ debugFlags, f ∉ s)
    (hsys : ∀ h ∈ ["stdbool.h", "stddef.h", "stdint.h"], ∀ f ∈ debugFlags,
      f ≠ "DEBUG_TRACE_EXECUTION" → f ∉ sys h) :
    ∃ m, process sys guardedPart s = some m ∧
      "DEBUG_TRACE_EXECUTION" ∈ m ∧ "DEBUG_PRINT_CODE" ∉ m ∧
      "DEBUG_STRESS_GC" ∉ m ∧ "DEBUG_LOG_GC" ∉ m := by
  simp only [debugFlags, List.mem_cons, List.mem_singleton, List.not_mem_nil,
    or_false, forall_eq_or_imp, forall_eq] at hflags hsys
  obtain ⟨hPC, -, hSG, hLG⟩ := hflags
  obtain ⟨h1, h2, h3⟩ := hsys
  refine ⟨insert "DEBUG_TRACE_EXECUTION"
    (insert "clox_common_h" s ∪ sys "stdbool.h" ∪ sys "stddef.h" ∪ sys "stdint.h"),
    ?_, ?_⟩
  · simp [process, run, step, guardedPart, commonH, PPState.active, PPState.start,
      hguard]
  · simp_all

/-- Witness for C5: the empty macro set and system headers contributing no
macros. -/
theorem guardedPart_enables_only_trace_witness :
    "clox_common_h" ∉ (∅ : Finset String) ∧
    ∃ m, process (fun _ => ∅) guardedPart ∅ = some m ∧
      "DEBUG_TRACE_EXECUTION" ∈ m ∧ "DEBUG_PRINT_CODE" ∉ m ∧
      "DEBUG_STRESS_GC" ∉ m ∧ "DEBUG_LOG_GC" ∉ m :=
  ⟨by simp,
    guardedPart_enables_only_trace (fun _ => ∅) ∅ (by simp) (by simp) (by simp)⟩

/-- C6: line 8 is `#define DEBUG_TRACE_EXECUTION`, and it has no effect on the
result: from every initial macro set, `common.h` and the header with line 8
removed both process successfully to exactly the same macro set. -/
theorem line8_has_no_effect :
    commonH.get? 7 = some (.define "DEBUG_TRACE_EXECUTION") ∧
    ∀ (sys : String → Finset String) (s : Finset String),
      ∃ m, process sys commonH s = some m ∧ process sys withoutLine8 s = some m := by
  refine ⟨rfl, fun sys s => ⟨_, process_commonH sys s, ?_⟩⟩
  rw [process_withoutLine8]
  split
  · rfl
  · rw [undefFlags_insert_trace]

/-- C7: processing `common.h` changes only the five names it mentions.  For a
macro name other than the include guard and the four flags, and not provided by
the three included system headers, processing succeeds and the name is defined
afterwards if and only if it was defined before. -/
theorem commonH_frame (sys : String → Finset String) (s : Finset String) (n : String)
    (hguard : n ≠ "clox_common_h")
    (hflags : ∀ f ∈ debugFlags, n ≠ f)
    (hsys : ∀ h ∈ ["stdbool.h", "stddef.h", "stdint.h"], n ∉ sys h) :
    ∃ m, process sys commonH s = some m ∧ (n ∈ m ↔ n ∈ s) := by
  simp only [debugFlags, List.mem_cons, List.mem_singleton, List.not_mem_nil,
    or_false, forall_eq_or_imp, forall_eq] at hflags hsys
  obtain ⟨hPC, hTE, hSG, hLG⟩ := hflags
  obtain ⟨h1, h2, h3⟩ := hsys
  refine ⟨_, process_commonH sys s, ?_⟩
  split <;> simp [undefFlags, hguard, hPC, hTE, hSG, hLG, h1, h2, h3]

/-- Witness for C7: the name `NDEBUG`, defined beforehand next to a debug flag,
with system headers contributing no macros. -/
theorem commonH_frame_witness :
    "NDEBUG" ≠ "clox_common_h" ∧
    ∃ m, process (fun _ => ∅) commonH {"NDEBUG", "DEBUG_LOG_GC"} = some m ∧
      ("NDEBUG" ∈ m ↔ "NDEBUG" ∈ ({"NDEBUG", "DEBUG_LOG_GC"} : Finset String)) :=
  ⟨by decide,
    commonH_frame (fun _ => ∅) {"NDEBUG", "DEBUG_LOG_GC"} "NDEBUG" (by decide)
      (by decide) (by simp)⟩

/-- C8: from every initial macro set, processing `common.h` succeeds and leaves
the include guard `clox_common_h` defined.  When the guard is already defined
beforehand, the guarded body is skipped: after each of the first nine lines the
macro set is still the initial one and the open group is marked as skipped; line
10 closes the group; and the result of the whole header is the initial set with
the four trailing `#undef` lines applied. -/
theorem guard_defined_and_body_skipped (sys : String → Finset String)
    (s : Finset String) :
    (∃ m, process sys commonH s = some m ∧ "clox_common_h" ∈ m) ∧
    ("clox_common_h" ∈ s →
      (∀ k, 1 ≤ k → k ≤ 9 →
        run sys (commonH.take k) (PPState.start s) = some ⟨s, [false]⟩) ∧
      run sys (commonH.take 10) (PPState.start s) = some ⟨s, []⟩ ∧
      process sys commonH s = some (undefFlags s)) := by
  refine ⟨⟨_, process_commonH sys s, ?_⟩, fun h => ⟨?_, ?_, ?_⟩⟩
  · split
    · simpa [undefFlags]
    · simp [undefFlags]
  · intro k hk1 hk9
    interval_cases k <;>
      simp [run, step, commonH, PPState.active, PPState.start, h]
  · simp [run, step, commonH, PPState.active, PPState.start, h]
  · simp [process_commonH, h]

/-- Witness for C8: the guard and `DEBUG_LOG_GC` defined beforehand; the body is
skipped and the trailing `#undef` lines still remove the flag. -/
theorem guard_defined_and_body_skipped_witness :
    "clox_common_h" ∈ ({"clox_common_h", "DEBUG_LOG_GC"} : Finset String) ∧
    run (fun _ => ∅) (commonH.take 9) (PPState.start {"clox_common_h", "DEBUG_LOG_GC"})
      = some ⟨{"clox_common_h", "DEBUG_LOG_GC"}, [false]⟩ ∧
    process (fun _ => ∅) commonH {"clox_common_h", "DEBUG_LOG_GC"}
      = some (undefFlags {"clox_common_h", "DEBUG_LOG_GC"}) ∧
    undefFlags {"clox_common_h", "DEBUG_LOG_GC"} = {"clox_common_h"} :=
  have h : "clox_common_h" ∈ ({"clox_common_h", "DEBUG_LOG_GC"} : Finset String) := by
    decide
  have t := (guard_defined_and_body_skipped (fun _ => ∅)
    {"clox_common_h", "DEBUG_LOG_GC"}).2 h
  ⟨h, t.1 9 (by decide) (by decide), t.2.2, by decide⟩

end Clox
